import Mathlib

/-!
Verification development for the brc20-oracle Solana program
(`contracts/brc20-oracle`): the borsh record codec (`types.rs`), the
ed25519 companion-instruction checker and the three entry points
(`lib.rs`), together with the client-side address derivation
(`utils/src/instruction.rs`).

Bytes are modelled as `Nat` (with explicit `< 256` well-formedness where
it matters), byte strings as `List Nat`.  Fallible Rust code is modelled
with `Option`/`Except`; a Rust panic is modelled as `Option.none`.
-/

set_option maxRecDepth 100000

/-- Little-endian encoding of `v` into `w` bytes (borsh integer layout:
`u16`/`u32`/`u64`/`u128` are stored as fixed-width little-endian). -/
def leBytes : Nat → Nat → List Nat
  | 0, _ => []
  | w + 1, v => v % 256 :: leBytes w (v / 256)

/-- Value of a little-endian byte list (inverse of `leBytes`). -/
def leVal : List Nat → Nat
  | [] => 0
  | b :: bs => b + 256 * leVal bs

/-- All entries of the list are genuine bytes. -/
def IsBytes (l : List Nat) : Prop := ∀ b ∈ l, b < 256

instance : DecidablePred IsBytes := fun l =>
  inferInstanceAs (Decidable (∀ b ∈ l, b < 256))

theorem leBytes_length (w v : Nat) : (leBytes w v).length = w := by
  induction w generalizing v with
  | zero => rfl
  | succ w ih => simp [leBytes, ih]

theorem leBytes_isBytes (w v : Nat) : IsBytes (leBytes w v) := by
  induction w generalizing v with
  | zero => intro b hb; simp [leBytes] at hb
  | succ w ih =>
    intro b hb
    simp only [leBytes, List.mem_cons] at hb
    rcases hb with h | h
    · subst h; exact Nat.mod_lt _ (by norm_num)
    · exact ih _ _ h

theorem leVal_leBytes (w v : Nat) (h : v < 256 ^ w) :
    leVal (leBytes w v) = v := by
  induction w generalizing v with
  | zero => simp [leBytes, leVal]; omega
  | succ w ih =>
    simp only [leBytes, leVal]
    rw [ih (v / 256) (by
      have h2 : 256 ^ (w + 1) = 256 * 256 ^ w := by ring
      rw [h2] at h
      exact Nat.div_lt_of_lt_mul h)]
    omega

theorem leBytes_leVal (bs : List Nat) (h : IsBytes bs) :
    leBytes bs.length (leVal bs) = bs := by
  induction bs with
  | nil => rfl
  | cons b rest ih =>
    have hb : b < 256 := h b (List.mem_cons_self b rest)
    have hrest : IsBytes rest := fun x hx => h x (List.mem_cons_of_mem b hx)
    simp only [List.length_cons, leBytes, leVal]
    have h1 : (b + 256 * leVal rest) % 256 = b := by omega
    have h2 : (b + 256 * leVal rest) / 256 = leVal rest := by omega
    rw [h1, h2, ih hrest]

theorem leVal_lt (bs : List Nat) (h : IsBytes bs) :
    leVal bs < 256 ^ bs.length := by
  induction bs with
  | nil => simp [leVal]
  | cons b rest ih =>
    have hb : b < 256 := h b (List.mem_cons_self b rest)
    have hrest := ih (fun x hx => h x (List.mem_cons_of_mem b hx))
    simp only [leVal, List.length_cons, pow_succ]
    calc b + 256 * leVal rest < 256 + 256 * leVal rest := by omega
    _ = 256 * (leVal rest + 1) := by ring
    _ ≤ 256 * 256 ^ rest.length := by
        have : leVal rest + 1 ≤ 256 ^ rest.length := hrest
        exact Nat.mul_le_mul_left 256 this
    _ = 256 ^ rest.length * 256 := by ring

/-! ### Record types (`contracts/brc20-oracle/src/types.rs`) -/

/-- `Committee { id: u8, address: Pubkey, uid: u64 }`.  A Solana `Pubkey`
is 32 raw bytes. -/
structure Committee where
  id : Nat
  address : List Nat
  uid : Nat
deriving DecidableEq

/-- Range/shape constraints coming from the Rust field types
(`u8`, 32-byte `Pubkey`, `u64`). -/
def Committee.WF (c : Committee) : Prop :=
  c.id < 256 ∧ c.address.length = 32 ∧ IsBytes c.address ∧ c.uid < 2 ^ 64

instance : DecidablePred Committee.WF := fun c => by
  unfold Committee.WF; infer_instance

/-- `enum AddressType` of `types.rs`: payloads are 33, 33, 64 and 32
fixed bytes respectively. -/
inductive AddressType where
  | P2pkh (pk : List Nat)
  | P2wpkh (pk : List Nat)
  | P2trUnTweaked (pk : List Nat)
  | P2trTweaked (pk : List Nat)
deriving DecidableEq

def AddressType.WF : AddressType → Prop
  | .P2pkh pk => pk.length = 33 ∧ IsBytes pk
  | .P2wpkh pk => pk.length = 33 ∧ IsBytes pk
  | .P2trUnTweaked pk => pk.length = 64 ∧ IsBytes pk
  | .P2trTweaked pk => pk.length = 32 ∧ IsBytes pk

instance : DecidablePred AddressType.WF := fun t => by
  cases t <;> (unfold AddressType.WF; infer_instance)

/-- `BtcAddress { network: u8, address_type: AddressType }`. -/
structure BtcAddress where
  network : Nat
  address_type : AddressType
deriving DecidableEq

def BtcAddress.WF (a : BtcAddress) : Prop :=
  a.network < 256 ∧ a.address_type.WF

instance : DecidablePred BtcAddress.WF := fun a => by
  unfold BtcAddress.WF; infer_instance

/-- `Brc20Key { height: u32, tick: [u8;4], address: BtcAddress }`. -/
structure Brc20Key where
  height : Nat
  tick : List Nat
  address : BtcAddress
deriving DecidableEq

def Brc20Key.WF (k : Brc20Key) : Prop :=
  k.height < 2 ^ 32 ∧ k.tick.length = 4 ∧ IsBytes k.tick ∧ k.address.WF

instance : DecidablePred Brc20Key.WF := fun k => by
  unfold Brc20Key.WF; infer_instance

/-- `Brc20Asset` as declared in `types.rs`:
`{ prefix: [u8;5], set: bool, uid: u64, key: Brc20Key, amount: u128 }`.
The `prefix` field is renamed `prefixBytes` here. -/
structure Brc20Asset where
  prefixBytes : List Nat
  set : Bool
  uid : Nat
  key : Brc20Key
  amount : Nat
deriving DecidableEq

def Brc20Asset.WF (a : Brc20Asset) : Prop :=
  a.prefixBytes.length = 5 ∧ IsBytes a.prefixBytes ∧ a.uid < 2 ^ 64 ∧
    a.key.WF ∧ a.amount < 2 ^ 128

instance : DecidablePred Brc20Asset.WF := fun a => by
  unfold Brc20Asset.WF; infer_instance

/-! ### Borsh serialization (`BorshSerialize` derive, field order,
little-endian, enum = 1 tag byte then payload, bool = 1 byte 0/1) -/

def serAddressType : AddressType → List Nat
  | .P2pkh pk => 0 :: pk
  | .P2wpkh pk => 1 :: pk
  | .P2trUnTweaked pk => 2 :: pk
  | .P2trTweaked pk => 3 :: pk

def serBtcAddress (a : BtcAddress) : List Nat :=
  a.network % 256 :: serAddressType a.address_type

def serBrc20Key (k : Brc20Key) : List Nat :=
  leBytes 4 k.height ++ k.tick ++ serBtcAddress k.address

def serBool (b : Bool) : List Nat := [if b then 1 else 0]

def serCommittee (c : Committee) : List Nat :=
  leBytes 1 c.id ++ c.address ++ leBytes 8 c.uid

def serBrc20Asset (a : Brc20Asset) : List Nat :=
  a.prefixBytes ++ serBool a.set ++ leBytes 8 a.uid ++
    serBrc20Key a.key ++ leBytes 16 a.amount

/-! ### Borsh deserialization (`BorshDeserialize` derive +
`try_from_slice`, which fails when bytes remain). -/

/-- Read a `w`-byte little-endian unsigned integer, returning the rest. -/
def readU (w : Nat) (bs : List Nat) : Option (Nat × List Nat) :=
  if w ≤ bs.length then some (leVal (bs.take w), bs.drop w) else none

/-- Read `n` raw bytes (fixed-size `[u8; n]` array), returning the rest. -/
def readBytesN (n : Nat) (bs : List Nat) : Option (List Nat × List Nat) :=
  if n ≤ bs.length then some (bs.take n, bs.drop n) else none

/-- Borsh `bool`: a single byte that must be 0 or 1 (strict). -/
def readBool : List Nat → Option (Bool × List Nat)
  | [] => none
  | b :: rest =>
    if b = 0 then some (false, rest)
    else if b = 1 then some (true, rest)
    else none

/-- Borsh enum: 1 tag byte, then the variant payload; unknown tags fail. -/
def readAddressType : List Nat → Option (AddressType × List Nat)
  | [] => none
  | tag :: rest =>
    if tag = 0 then
      match readBytesN 33 rest with
      | some (pk, r) => some (.P2pkh pk, r)
      | none => none
    else if tag = 1 then
      match readBytesN 33 rest with
      | some (pk, r) => some (.P2wpkh pk, r)
      | none => none
    else if tag = 2 then
      match readBytesN 64 rest with
      | some (pk, r) => some (.P2trUnTweaked pk, r)
      | none => none
    else if tag = 3 then
      match readBytesN 32 rest with
      | some (pk, r) => some (.P2trTweaked pk, r)
      | none => none
    else none

def readBtcAddress : List Nat → Option (BtcAddress × List Nat)
  | [] => none
  | net :: rest =>
    match readAddressType rest with
    | some (t, r) => some (⟨net, t⟩, r)
    | none => none

def readBrc20Key (bs : List Nat) : Option (Brc20Key × List Nat) :=
  match readU 4 bs with
  | some (h, r1) =>
    match readBytesN 4 r1 with
    | some (t, r2) =>
      match readBtcAddress r2 with
      | some (a, r3) => some (⟨h, t, a⟩, r3)
      | none => none
    | none => none
  | none => none

/-- `Committee::try_from_slice`: decode all fields, then require that no
bytes remain. -/
def Committee.try_from_slice (bs : List Nat) : Option Committee :=
  match readU 1 bs with
  | some (i, r1) =>
    match readBytesN 32 r1 with
    | some (addr, r2) =>
      match readU 8 r2 with
      | some (u, r3) => if r3 = [] then some ⟨i, addr, u⟩ else none
      | none => none
    | none => none
  | none => none

/-- `Brc20Asset::try_from_slice` for the `types.rs` record. -/
def Brc20Asset.try_from_slice (bs : List Nat) : Option Brc20Asset :=
  match readBytesN 5 bs with
  | some (p, r1) =>
    match readBool r1 with
    | some (s, r2) =>
      match readU 8 r2 with
      | some (u, r3) =>
        match readBrc20Key r3 with
        | some (k, r4) =>
          match readU 16 r4 with
          | some (am, r5) => if r5 = [] then some ⟨p, s, u, k, am⟩ else none
          | none => none
        | none => none
      | none => none
    | none => none
  | none => none

/-! ### Codec lemmas: round-trip and exactness -/

theorem isBytes_append {l₁ l₂ : List Nat} :
    IsBytes (l₁ ++ l₂) ↔ IsBytes l₁ ∧ IsBytes l₂ := by
  constructor
  · intro h
    exact ⟨fun b hb => h b (List.mem_append_left _ hb),
           fun b hb => h b (List.mem_append_right _ hb)⟩
  · rintro ⟨h₁, h₂⟩ b hb
    rcases List.mem_append.mp hb with h | h
    · exact h₁ b h
    · exact h₂ b h

theorem IsBytes.take {l : List Nat} (h : IsBytes l) (n : Nat) :
    IsBytes (l.take n) :=
  fun b hb => h b (List.take_subset n l hb)

theorem IsBytes.drop {l : List Nat} (h : IsBytes l) (n : Nat) :
    IsBytes (l.drop n) :=
  fun b hb => h b (List.drop_subset n l hb)

theorem readU_ser (w v : Nat) (rest : List Nat) (h : v < 256 ^ w) :
    readU w (leBytes w v ++ rest) = some (v, rest) := by
  unfold readU
  have hlen : (leBytes w v).length = w := leBytes_length w v
  rw [if_pos (by simp [hlen])]
  rw [List.take_left' hlen, List.drop_left' hlen, leVal_leBytes w v h]

theorem readU_some {w : Nat} {bs : List Nat} {v : Nat} {rest : List Nat}
    (h : readU w bs = some (v, rest)) (hb : IsBytes bs) :
    bs = leBytes w v ++ rest ∧ v < 256 ^ w := by
  unfold readU at h
  split at h
  · next hle =>
    obtain ⟨hv, hrest⟩ : leVal (bs.take w) = v ∧ bs.drop w = rest := by
      constructor <;> · injection h with h'; cases h'; rfl
    have htk : (bs.take w).length = w := by simp; omega
    have hbt : IsBytes (bs.take w) := hb.take w
    constructor
    · rw [← hv, ← hrest]
      have hser : leBytes w (leVal (bs.take w)) = bs.take w := by
        have h2 := leBytes_leVal (bs.take w) hbt
        rwa [htk] at h2
      rw [hser, List.take_append_drop]
    · rw [← hv]
      have hlt := leVal_lt _ hbt
      rwa [htk] at hlt
  · exact absurd h (by simp)

theorem readBytesN_ser (x rest : List Nat) :
    readBytesN x.length (x ++ rest) = some (x, rest) := by
  unfold readBytesN
  rw [if_pos (by simp)]
  rw [List.take_left, List.drop_left]

theorem readBytesN_ser' {n : Nat} (x rest : List Nat) (h : x.length = n) :
    readBytesN n (x ++ rest) = some (x, rest) := by
  subst h; exact readBytesN_ser x rest

theorem readBytesN_some {n : Nat} {bs x rest : List Nat}
    (h : readBytesN n bs = some (x, rest)) :
    bs = x ++ rest ∧ x.length = n := by
  unfold readBytesN at h
  split at h
  · next hle =>
    obtain ⟨hx, hr⟩ : bs.take n = x ∧ bs.drop n = rest := by
      constructor <;> · injection h with h'; cases h'; rfl
    subst hx; subst hr
    exact ⟨(List.take_append_drop n bs).symm, by simp; omega⟩
  · exact absurd h (by simp)

theorem readBool_ser (b : Bool) (rest : List Nat) :
    readBool (serBool b ++ rest) = some (b, rest) := by
  cases b <;> simp [serBool, readBool]

theorem readBool_some {bs : List Nat} {b : Bool} {rest : List Nat}
    (h : readBool bs = some (b, rest)) : bs = serBool b ++ rest := by
  cases bs with
  | nil => exact absurd h (by simp [readBool])
  | cons x r =>
    simp only [readBool] at h
    split_ifs at h with h0 h1
    · simp only [Option.some.injEq, Prod.mk.injEq] at h
      obtain ⟨rfl, rfl⟩ := h
      simp [serBool, h0]
    · simp only [Option.some.injEq, Prod.mk.injEq] at h
      obtain ⟨rfl, rfl⟩ := h
      simp [serBool, h1]

theorem readAddressType_ser (t : AddressType) (rest : List Nat)
    (h : t.WF) : readAddressType (serAddressType t ++ rest) = some (t, rest) := by
  cases t with
  | P2pkh pk =>
    obtain ⟨hl, -⟩ := h
    simp only [serAddressType, List.cons_append, readAddressType,
      readBytesN_ser' pk rest hl, if_true]
  | P2wpkh pk =>
    obtain ⟨hl, -⟩ := h
    simp only [serAddressType, List.cons_append, readAddressType,
      readBytesN_ser' pk rest hl]
    norm_num
  | P2trUnTweaked pk =>
    obtain ⟨hl, -⟩ := h
    simp only [serAddressType, List.cons_append, readAddressType,
      readBytesN_ser' pk rest hl]
    norm_num
  | P2trTweaked pk =>
    obtain ⟨hl, -⟩ := h
    simp only [serAddressType, List.cons_append, readAddressType,
      readBytesN_ser' pk rest hl]
    norm_num

theorem readAddressType_some {bs : List Nat} {t : AddressType} {rest : List Nat}
    (h : readAddressType bs = some (t, rest)) (hb : IsBytes bs) :
    bs = serAddressType t ++ rest ∧ t.WF := by
  cases bs with
  | nil => exact absurd h (by simp [readAddressType])
  | cons tag rest' =>
    have hbr : IsBytes rest' := fun b hbm => hb b (by simp [hbm])
    simp only [readAddressType] at h
    split_ifs at h with h0 h1 h2 h3
    · cases hr : readBytesN 33 rest' with
      | none => simp [hr] at h
      | some pr =>
        obtain ⟨pk, r⟩ := pr
        simp only [hr, Option.some.injEq, Prod.mk.injEq] at h
        obtain ⟨rfl, rfl⟩ := h
        obtain ⟨he, hl⟩ := readBytesN_some hr
        subst h0
        refine ⟨by rw [he]; rfl, hl, ?_⟩
        rw [he] at hbr
        exact (isBytes_append.mp hbr).1
    · cases hr : readBytesN 33 rest' with
      | none => simp [hr] at h
      | some pr =>
        obtain ⟨pk, r⟩ := pr
        simp only [hr, Option.some.injEq, Prod.mk.injEq] at h
        obtain ⟨rfl, rfl⟩ := h
        obtain ⟨he, hl⟩ := readBytesN_some hr
        subst h1
        refine ⟨by rw [he]; rfl, hl, ?_⟩
        rw [he] at hbr
        exact (isBytes_append.mp hbr).1
    · cases hr : readBytesN 64 rest' with
      | none => simp [hr] at h
      | some pr =>
        obtain ⟨pk, r⟩ := pr
        simp only [hr, Option.some.injEq, Prod.mk.injEq] at h
        obtain ⟨rfl, rfl⟩ := h
        obtain ⟨he, hl⟩ := readBytesN_some hr
        subst h2
        refine ⟨by rw [he]; rfl, hl, ?_⟩
        rw [he] at hbr
        exact (isBytes_append.mp hbr).1
    · cases hr : readBytesN 32 rest' with
      | none => simp [hr] at h
      | some pr =>
        obtain ⟨pk, r⟩ := pr
        simp only [hr, Option.some.injEq, Prod.mk.injEq] at h
        obtain ⟨rfl, rfl⟩ := h
        obtain ⟨he, hl⟩ := readBytesN_some hr
        subst h3
        refine ⟨by rw [he]; rfl, hl, ?_⟩
        rw [he] at hbr
        exact (isBytes_append.mp hbr).1

theorem readBtcAddress_ser (a : BtcAddress) (rest : List Nat)
    (h : a.WF) : readBtcAddress (serBtcAddress a ++ rest) = some (a, rest) := by
  obtain ⟨hn, ht⟩ := h
  simp only [serBtcAddress, List.cons_append, readBtcAddress,
    readAddressType_ser _ _ ht, Nat.mod_eq_of_lt hn]

theorem readBtcAddress_some {bs : List Nat} {a : BtcAddress} {rest : List Nat}
    (h : readBtcAddress bs = some (a, rest)) (hb : IsBytes bs) :
    bs = serBtcAddress a ++ rest ∧ a.WF := by
  cases bs with
  | nil => exact absurd h (by simp [readBtcAddress])
  | cons net rest' =>
    have hbr : IsBytes rest' := fun b hbm => hb b (by simp [hbm])
    have hnet : net < 256 := hb net (by simp)
    simp only [readBtcAddress] at h
    cases hr : readAddressType rest' with
    | none => simp [hr] at h
    | some pr =>
      obtain ⟨t, r⟩ := pr
      simp only [hr, Option.some.injEq, Prod.mk.injEq] at h
      obtain ⟨rfl, rfl⟩ := h
      obtain ⟨he, hwf⟩ := readAddressType_some hr hbr
      refine ⟨?_, hnet, hwf⟩
      rw [he]
      simp [serBtcAddress, Nat.mod_eq_of_lt hnet]

theorem readBrc20Key_ser (k : Brc20Key) (rest : List Nat)
    (h : k.WF) : readBrc20Key (serBrc20Key k ++ rest) = some (k, rest) := by
  obtain ⟨hh, htl, htb, ha⟩ := h
  unfold readBrc20Key
  rw [serBrc20Key, List.append_assoc, List.append_assoc]
  simp only [readU_ser 4 k.height _ hh]
  simp only [readBytesN_ser' k.tick _ htl]
  simp only [readBtcAddress_ser k.address rest ha]

theorem readBrc20Key_some {bs : List Nat} {k : Brc20Key} {rest : List Nat}
    (h : readBrc20Key bs = some (k, rest)) (hb : IsBytes bs) :
    bs = serBrc20Key k ++ rest ∧ k.WF := by
  unfold readBrc20Key at h
  cases h1 : readU 4 bs with
  | none => simp [h1] at h
  | some pr1 =>
    obtain ⟨hv, r1⟩ := pr1
    simp only [h1] at h
    cases h2 : readBytesN 4 r1 with
    | none => simp [h2] at h
    | some pr2 =>
      obtain ⟨t, r2⟩ := pr2
      simp only [h2] at h
      cases h3 : readBtcAddress r2 with
      | none => simp [h3] at h
      | some pr3 =>
        obtain ⟨a, r3⟩ := pr3
        simp only [h3, Option.some.injEq, Prod.mk.injEq] at h
        obtain ⟨rfl, rfl⟩ := h
        obtain ⟨he1, hb1⟩ := readU_some h1 hb
        have hbr1 : IsBytes r1 := by
          rw [he1] at hb; exact (isBytes_append.mp hb).2
        obtain ⟨he2, hl2⟩ := readBytesN_some h2
        have hbr2 : IsBytes r2 := by
          rw [he2] at hbr1; exact (isBytes_append.mp hbr1).2
        obtain ⟨he3, hwf3⟩ := readBtcAddress_some h3 hbr2
        refine ⟨?_, hb1, hl2, ?_, hwf3⟩
        · rw [he1, he2, he3, serBrc20Key]
          simp [List.append_assoc]
        · rw [he2] at hbr1; exact (isBytes_append.mp hbr1).1

theorem readU_serNil (w v : Nat) (h : v < 256 ^ w) :
    readU w (leBytes w v) = some (v, []) := by
  have h2 := readU_ser w v [] h
  rwa [List.append_nil] at h2

theorem serAddressType_isBytes (t : AddressType) (h : t.WF) :
    IsBytes (serAddressType t) := by
  cases t <;>
  · obtain ⟨-, hB⟩ := h
    intro b hb
    simp only [serAddressType, List.mem_cons] at hb
    rcases hb with rfl | hb
    · norm_num
    · exact hB b hb

theorem serBtcAddress_isBytes (a : BtcAddress) (h : a.WF) :
    IsBytes (serBtcAddress a) := by
  obtain ⟨hn, ht⟩ := h
  intro b hb
  simp only [serBtcAddress, List.mem_cons] at hb
  rcases hb with rfl | hb
  · exact Nat.mod_lt _ (by norm_num)
  · exact serAddressType_isBytes _ ht b hb

theorem serBrc20Key_isBytes (k : Brc20Key) (h : k.WF) :
    IsBytes (serBrc20Key k) := by
  obtain ⟨hh, htl, htb, ha⟩ := h
  rw [serBrc20Key]
  refine isBytes_append.mpr ⟨isBytes_append.mpr ⟨leBytes_isBytes 4 k.height, htb⟩, ?_⟩
  exact serBtcAddress_isBytes k.address ha

theorem serCommittee_isBytes (c : Committee) (h : c.WF) :
    IsBytes (serCommittee c) := by
  obtain ⟨hi, hl, hb, hu⟩ := h
  rw [serCommittee]
  exact isBytes_append.mpr ⟨isBytes_append.mpr ⟨leBytes_isBytes 1 c.id, hb⟩,
    leBytes_isBytes 8 c.uid⟩

theorem serBrc20Asset_isBytes (a : Brc20Asset) (h : a.WF) :
    IsBytes (serBrc20Asset a) := by
  obtain ⟨hp, hpb, hu, hk, ham⟩ := h
  rw [serBrc20Asset]
  refine isBytes_append.mpr ⟨isBytes_append.mpr ⟨isBytes_append.mpr
    ⟨isBytes_append.mpr ⟨hpb, ?_⟩, leBytes_isBytes 8 a.uid⟩,
    serBrc20Key_isBytes a.key hk⟩, leBytes_isBytes 16 a.amount⟩
  cases a.set <;> (intro b hb; simp [serBool] at hb; omega)

theorem serCommittee_length (c : Committee) (h : c.address.length = 32) :
    (serCommittee c).length = 41 := by
  simp [serCommittee, leBytes_length, h]

/-- Round trip: a well-formed committee decodes back from its borsh bytes. -/
theorem committee_roundtrip (c : Committee) (h : c.WF) :
    Committee.try_from_slice (serCommittee c) = some c := by
  obtain ⟨hi, hl, hb, hu⟩ := h
  unfold Committee.try_from_slice
  rw [serCommittee, List.append_assoc]
  simp only [readU_ser 1 c.id _ (by norm_num at hi ⊢; omega)]
  simp only [readBytesN_ser' c.address _ hl]
  simp only [readU_serNil 8 c.uid (by norm_num at hu ⊢; omega)]
  simp

/-- Exactness: a successful committee decode determines the input bytes. -/
theorem committee_exact {bs : List Nat} {c : Committee}
    (h : Committee.try_from_slice bs = some c) (hb : IsBytes bs) :
    bs = serCommittee c ∧ c.WF := by
  unfold Committee.try_from_slice at h
  cases h1 : readU 1 bs with
  | none => simp [h1] at h
  | some pr1 =>
    obtain ⟨i, r1⟩ := pr1
    simp only [h1] at h
    cases h2 : readBytesN 32 r1 with
    | none => simp [h2] at h
    | some pr2 =>
      obtain ⟨addr, r2⟩ := pr2
      simp only [h2] at h
      cases h3 : readU 8 r2 with
      | none => simp [h3] at h
      | some pr3 =>
        obtain ⟨u, r3⟩ := pr3
        simp only [h3] at h
        split_ifs at h with hr3
        simp only [Option.some.injEq] at h
        subst h
        subst hr3
        obtain ⟨he1, hb1⟩ := readU_some h1 hb
        have hbr1 : IsBytes r1 := by
          rw [he1] at hb; exact (isBytes_append.mp hb).2
        obtain ⟨he2, hl2⟩ := readBytesN_some h2
        have hbr2 : IsBytes r2 := by
          rw [he2] at hbr1; exact (isBytes_append.mp hbr1).2
        obtain ⟨he3, hb3⟩ := readU_some h3 hbr2
        rw [List.append_nil] at he3
        refine ⟨?_, by norm_num at hb1 ⊢; omega, hl2, ?_, by norm_num at hb3 ⊢; omega⟩
        · rw [he1, he2, he3, serCommittee, List.append_assoc]
        · rw [he2] at hbr1; exact (isBytes_append.mp hbr1).1

/-- Trailing garbage after a committee encoding makes decoding fail. -/
theorem committee_trailing (c : Committee) (junk : List Nat) (h : c.WF)
    (hj : junk ≠ []) :
    Committee.try_from_slice (serCommittee c ++ junk) = none := by
  obtain ⟨hi, hl, hb, hu⟩ := h
  unfold Committee.try_from_slice
  rw [serCommittee, List.append_assoc, List.append_assoc]
  simp only [readU_ser 1 c.id _ (by norm_num at hi ⊢; omega)]
  simp only [readBytesN_ser' c.address _ hl]
  simp only [readU_ser 8 c.uid _ (by norm_num at hu ⊢; omega)]
  simp [hj]

/-- A strict prefix of a committee encoding fails to decode. -/
theorem committee_short (c : Committee) (n : Nat) (h : c.WF)
    (hn : n < (serCommittee c).length) :
    Committee.try_from_slice ((serCommittee c).take n) = none := by
  cases hd : Committee.try_from_slice ((serCommittee c).take n) with
  | none => rfl
  | some c' =>
    exfalso
    have hbytes : IsBytes ((serCommittee c).take n) :=
      (serCommittee_isBytes c h).take n
    obtain ⟨he, hwf'⟩ := committee_exact hd hbytes
    have hsplit : serCommittee c = serCommittee c' ++ (serCommittee c).drop n := by
      rw [← he, List.take_append_drop]
    have hne : (serCommittee c).drop n ≠ [] := by
      intro hcon
      have := List.length_drop n (serCommittee c)
      rw [hcon] at this
      simp at this
      omega
    have hnone := committee_trailing c' _ hwf' hne
    rw [← hsplit, committee_roundtrip c h] at hnone
    exact absurd hnone (by simp)

/-- Round trip for the `types.rs` asset record. -/
theorem asset_roundtrip (a : Brc20Asset) (h : a.WF) :
    Brc20Asset.try_from_slice (serBrc20Asset a) = some a := by
  obtain ⟨hp, hpb, hu, hk, ham⟩ := h
  unfold Brc20Asset.try_from_slice
  rw [serBrc20Asset]
  simp only [List.append_assoc]
  simp only [readBytesN_ser' a.prefixBytes _ hp]
  simp only [readBool_ser a.set]
  simp only [readU_ser 8 a.uid _ (by norm_num at hu ⊢; omega)]
  simp only [readBrc20Key_ser a.key _ hk]
  simp only [readU_serNil 16 a.amount (by norm_num at ham ⊢; omega)]
  simp

/-- Exactness for the `types.rs` asset record. -/
theorem asset_exact {bs : List Nat} {a : Brc20Asset}
    (h : Brc20Asset.try_from_slice bs = some a) (hb : IsBytes bs) :
    bs = serBrc20Asset a ∧ a.WF := by
  unfold Brc20Asset.try_from_slice at h
  cases h1 : readBytesN 5 bs with
  | none => simp [h1] at h
  | some pr1 =>
    obtain ⟨p, r1⟩ := pr1
    simp only [h1] at h
    cases h2 : readBool r1 with
    | none => simp [h2] at h
    | some pr2 =>
      obtain ⟨s, r2⟩ := pr2
      simp only [h2] at h
      cases h3 : readU 8 r2 with
      | none => simp [h3] at h
      | some pr3 =>
        obtain ⟨u, r3⟩ := pr3
        simp only [h3] at h
        cases h4 : readBrc20Key r3 with
        | none => simp [h4] at h
        | some pr4 =>
          obtain ⟨k, r4⟩ := pr4
          simp only [h4] at h
          cases h5 : readU 16 r4 with
          | none => simp [h5] at h
          | some pr5 =>
            obtain ⟨am, r5⟩ := pr5
            simp only [h5] at h
            split_ifs at h with hr5
            simp only [Option.some.injEq] at h
            subst h
            subst hr5
            obtain ⟨he1, hl1⟩ := readBytesN_some h1
            have hbr1 : IsBytes r1 := by
              rw [he1] at hb; exact (isBytes_append.mp hb).2
            have he2 := readBool_some h2
            have hbr2 : IsBytes r2 := by
              rw [he2] at hbr1; exact (isBytes_append.mp hbr1).2
            obtain ⟨he3, hb3⟩ := readU_some h3 hbr2
            have hbr3 : IsBytes r3 := by
              rw [he3] at hbr2; exact (isBytes_append.mp hbr2).2
            obtain ⟨he4, hwf4⟩ := readBrc20Key_some h4 hbr3
            have hbr4 : IsBytes r4 := by
              rw [he4] at hbr3; exact (isBytes_append.mp hbr3).2
            obtain ⟨he5, hb5⟩ := readU_some h5 hbr4
            rw [List.append_nil] at he5
            refine ⟨?_, hl1, ?_, by norm_num at hb3 ⊢; omega, hwf4,
              by norm_num at hb5 ⊢; omega⟩
            · rw [he1, he2, he3, he4, he5, serBrc20Asset]
              simp [List.append_assoc]
            · rw [he1] at hb; exact (isBytes_append.mp hb).1

/-- Trailing garbage after an asset encoding makes decoding fail. -/
theorem asset_trailing (a : Brc20Asset) (junk : List Nat) (h : a.WF)
    (hj : junk ≠ []) :
    Brc20Asset.try_from_slice (serBrc20Asset a ++ junk) = none := by
  obtain ⟨hp, hpb, hu, hk, ham⟩ := h
  unfold Brc20Asset.try_from_slice
  rw [serBrc20Asset]
  simp only [List.append_assoc]
  simp only [readBytesN_ser' a.prefixBytes _ hp]
  simp only [readBool_ser a.set]
  simp only [readU_ser 8 a.uid _ (by norm_num at hu ⊢; omega)]
  simp only [readBrc20Key_ser a.key _ hk]
  simp only [readU_ser 16 a.amount _ (by norm_num at ham ⊢; omega)]
  simp [hj]

/-- A strict prefix of an asset encoding fails to decode. -/
theorem asset_short (a : Brc20Asset) (n : Nat) (h : a.WF)
    (hn : n < (serBrc20Asset a).length) :
    Brc20Asset.try_from_slice ((serBrc20Asset a).take n) = none := by
  cases hd : Brc20Asset.try_from_slice ((serBrc20Asset a).take n) with
  | none => rfl
  | some a' =>
    exfalso
    have hbytes : IsBytes ((serBrc20Asset a).take n) :=
      (serBrc20Asset_isBytes a h).take n
    obtain ⟨he, hwf'⟩ := asset_exact hd hbytes
    have hsplit : serBrc20Asset a = serBrc20Asset a' ++ (serBrc20Asset a).drop n := by
      rw [← he, List.take_append_drop]
    have hne : (serBrc20Asset a).drop n ≠ [] := by
      intro hcon
      have hld := List.length_drop n (serBrc20Asset a)
      rw [hcon] at hld
      simp at hld
      omega
    have hnone := asset_trailing a' _ hwf' hne
    rw [← hsplit, asset_roundtrip a h] at hnone
    exact absurd hnone (by simp)

/-! ### Errors

`lib.rs` uses the variants `IncorrectCommitteePDA`, `IncorrectAssetPDA`,
`NotOwnedByBrc20Oracle`, `IncorrectCommitteeId`, `DuplicateRequest`,
`RequestNotInitialized` and `InvalidSigner` of `Brc20OracleError`
(the contract crate's `error.rs` is not part of the snapshot; the variant
names are exactly those referenced by `lib.rs`). -/

inductive Brc20OracleError where
  | IncorrectCommitteePDA
  | IncorrectAssetPDA
  | NotSignedByCommittee
  | NotOwnedByBrc20Oracle
  | DuplicateRequest
  | RequestNotInitialized
  | IncorrectCommitteeId
  | InvalidSigner
deriving DecidableEq

/-- Host-level `ProgramError`: either one of the program's own errors
(`ProgramError::Custom`) or an error surfaced by the runtime on one of
`lib.rs`'s `?` operators: a borsh decode failure, a
`load_instruction_at_checked` failure, an `invoke_signed`/
`create_account` failure, or a serialize-into-account-buffer failure. -/
inductive ProgramError where
  | custom (e : Brc20OracleError)
  | borshIoError
  | sysvarError
  | createAccountError
  | serializeError
deriving DecidableEq

/-! ### The companion-instruction checker (`lib.rs` lines 186–243) -/

deriving instance DecidableEq for Except

/-- `solana_program::instruction::AccountMeta`, reduced to the account's
pubkey (the program only ever checks that the list is empty). -/
structure AccountMeta where
  pubkey : List Nat
deriving DecidableEq

/-- `solana_program::instruction::Instruction`. -/
structure Instruction where
  program_id : List Nat
  accounts : List AccountMeta
  data : List Nat
deriving DecidableEq

/-- The well-known ed25519 verifier identity
(`solana_program::ed25519_program::ID`,
`Ed25519SigVerify111111111111111111111111111` in base58); only its
distinguished identity matters to the checks, not the value. -/
def ED25519_ID : List Nat :=
  [3, 125, 70, 214, 124, 147, 251, 190, 18, 249, 66, 143, 131, 141, 64, 255,
   5, 112, 116, 73, 39, 244, 138, 100, 252, 202, 112, 68, 128, 0, 0, 0]

/-- `check_ed25519_data` (`lib.rs` 197–243), inlining the `let` bindings.
The slice accesses `data[0] … data[112..]` panic when
`data.len() < 112`, and `msg.len().try_into::<u16>().unwrap()` panics
when `msg.len() ≥ 2^16`; both are modelled as `none`.  The `as u16`
casts on `pubkey.len()` and `sig.len()` truncate, and the `u16`
additions building the expected offsets are reduced modulo `2^16`.
The first guard mirrors the header comparison chain (lines 225–236),
the second the argument comparisons (line 239). -/
def check_ed25519_data (data pubkey msg sig : List Nat) :
    Option (Except ProgramError Unit) :=
  if data.length < 112 then none
  else if 65536 ≤ msg.length then none
  else if data.take 1 ≠ [1]
      ∨ (data.drop 1).take 1 ≠ [0]
      ∨ (data.drop 2).take 2 ≠ leBytes 2 ((16 + pubkey.length % 65536) % 65536)
      ∨ (data.drop 4).take 2 ≠ leBytes 2 65535
      ∨ (data.drop 6).take 2 ≠ leBytes 2 16
      ∨ (data.drop 8).take 2 ≠ leBytes 2 65535
      ∨ (data.drop 10).take 2 ≠
          leBytes 2 (((16 + pubkey.length % 65536) % 65536 + sig.length % 65536) % 65536)
      ∨ (data.drop 12).take 2 ≠ leBytes 2 msg.length
      ∨ (data.drop 14).take 2 ≠ leBytes 2 65535 then
    some (.error (.custom .InvalidSigner))
  else if (data.drop 16).take 32 ≠ pubkey
      ∨ data.drop 112 ≠ msg
      ∨ (data.drop 48).take 64 ≠ sig then
    some (.error (.custom .InvalidSigner))
  else some (.ok ())

/-- `verify_ed25519_ix` (`lib.rs` 186–195): program-id, accounts and
length guard, then the data check; on success Rust returns `Ok(())`,
which coincides with propagating the check's result. -/
def verify_ed25519_ix (ix : Instruction) (pubkey msg sig : List Nat) :
    Option (Except ProgramError Unit) :=
  if ix.program_id ≠ ED25519_ID ∨ ix.accounts ≠ [] ∨
      ix.data.length ≠ 16 + 64 + 32 + msg.length then
    some (.error (.custom .InvalidSigner))
  else check_ed25519_data ix.data pubkey msg sig

/-- The instruction data produced by the SDK's
`new_ed25519_instruction` for a single signature whose public key,
signature and message are laid out at offsets 16, 48 and 112
(used by `utils/src/instruction.rs` to build companion instructions). -/
def ed25519IxData (pubkey sig msg : List Nat) : List Nat :=
  [1, 0] ++ leBytes 2 48 ++ [255, 255] ++ leBytes 2 16 ++ [255, 255] ++
    leBytes 2 112 ++ leBytes 2 msg.length ++ [255, 255] ++ pubkey ++ sig ++ msg

/-- A fully well-formed companion instruction for a given expected
public key, signature and message. -/
def ed25519Ix (pubkey sig msg : List Nat) : Instruction :=
  ⟨ED25519_ID, [], ed25519IxData pubkey sig msg⟩

theorem check_ed25519_data_ok_iff (data pubkey msg sig : List Nat) :
    check_ed25519_data data pubkey msg sig = some (.ok ()) ↔
      (112 ≤ data.length ∧ msg.length < 65536 ∧
       data.take 1 = [1] ∧
       (data.drop 1).take 1 = [0] ∧
       (data.drop 2).take 2 = leBytes 2 ((16 + pubkey.length % 65536) % 65536) ∧
       (data.drop 4).take 2 = leBytes 2 65535 ∧
       (data.drop 6).take 2 = leBytes 2 16 ∧
       (data.drop 8).take 2 = leBytes 2 65535 ∧
       (data.drop 10).take 2 =
         leBytes 2 (((16 + pubkey.length % 65536) % 65536 + sig.length % 65536) % 65536) ∧
       (data.drop 12).take 2 = leBytes 2 msg.length ∧
       (data.drop 14).take 2 = leBytes 2 65535 ∧
       (data.drop 16).take 32 = pubkey ∧
       data.drop 112 = msg ∧
       (data.drop 48).take 64 = sig) := by
  unfold check_ed25519_data
  split_ifs with h1 h2 h3 h4
  · constructor
    · intro h; exact absurd h (by simp)
    · rintro ⟨hc, -⟩; exact absurd hc (by omega)
  · constructor
    · intro h; exact absurd h (by simp)
    · rintro ⟨-, hc, -⟩; exact absurd hc (by omega)
  · constructor
    · intro h; exact absurd h (by simp)
    · rintro ⟨-, -, e1, e2, e3, e4, e5, e6, e7, e8, e9, -, -, -⟩
      rcases h3 with h | h | h | h | h | h | h | h | h <;> exact absurd (by assumption) h
  · constructor
    · intro h; exact absurd h (by simp)
    · rintro ⟨-, -, -, -, -, -, -, -, -, -, -, e10, e11, e12⟩
      rcases h4 with h | h | h <;> exact absurd (by assumption) h
  · push_neg at h3 h4
    obtain ⟨e1, e2, e3, e4, e5, e6, e7, e8, e9⟩ := h3
    obtain ⟨e10, e11, e12⟩ := h4
    constructor
    · intro _
      exact ⟨by omega, by omega, e1, e2, e3, e4, e5, e6, e7, e8, e9, e10, e11, e12⟩
    · intro _; rfl

/-- C1: signature-attestation verifier contract.  For a 32-byte expected
public key and 64-byte signature, `verify_ed25519_ix` accepts exactly
when the companion instruction targets the ed25519 verifier identity,
touches no accounts, has data of length `16 + 64 + 32 + msg.len()`, its
16-byte header matches the expected pattern (count 1, padding 0,
public-key offset 16, signature offset 48, message offset 112, message
size `msg.len()`, all three instruction indices `u16::MAX`), and the
spans at 16..48, 48..112 and 112.. equal the expected public key,
signature and message; any failed check yields `InvalidSigner` (and the
only non-`Ok` outcomes are `InvalidSigner` or the modelled panic). -/
theorem verify_ed25519_ix_ok_iff (ix : Instruction) (pk msg sig : List Nat)
    (hpk : pk.length = 32) (hsig : sig.length = 64) :
    (verify_ed25519_ix ix pk msg sig = some (.ok ()) ↔
      (ix.program_id = ED25519_ID ∧ ix.accounts = [] ∧
       ix.data.length = 16 + 64 + 32 + msg.length ∧
       ix.data.take 1 = [1] ∧
       (ix.data.drop 1).take 1 = [0] ∧
       (ix.data.drop 6).take 2 = leBytes 2 16 ∧
       (ix.data.drop 2).take 2 = leBytes 2 48 ∧
       (ix.data.drop 10).take 2 = leBytes 2 112 ∧
       (msg.length < 65536 ∧ (ix.data.drop 12).take 2 = leBytes 2 msg.length) ∧
       (ix.data.drop 4).take 2 = leBytes 2 65535 ∧
       (ix.data.drop 8).take 2 = leBytes 2 65535 ∧
       (ix.data.drop 14).take 2 = leBytes 2 65535 ∧
       (ix.data.drop 16).take 32 = pk ∧
       (ix.data.drop 48).take 64 = sig ∧
       ix.data.drop 112 = msg)) ∧
    (∀ r, verify_ed25519_ix ix pk msg sig = some r →
       r = .ok () ∨ r = .error (.custom .InvalidSigner)) := by
  constructor
  · unfold verify_ed25519_ix
    split_ifs with hg
    · constructor
      · intro h; exact absurd h (by simp)
      · rintro ⟨hA, hB, hC, -⟩
        exfalso
        rcases hg with h | h | h
        · exact h hA
        · exact h hB
        · exact h hC
    · push_neg at hg
      obtain ⟨hA, hB, hC⟩ := hg
      rw [check_ed25519_data_ok_iff, hpk, hsig]
      norm_num
      constructor
      · rintro ⟨-, h2, e1, e2, e3, e4, e5, e6, e7, e8, e9, e10, e11, e12⟩
        exact ⟨hA, hB, by omega, e1, e2, e5, e3, e7, ⟨h2, e8⟩, e4, e6, e9, e10, e12, e11⟩
      · rintro ⟨-, -, hlen, e1, e2, e5, e3, e7, ⟨h2, e8⟩, e4, e6, e9, e10, e12, e11⟩
        exact ⟨by omega, h2, e1, e2, e3, e4, e5, e6, e7, e8, e9, e10, e11, e12⟩
  · intro r hr
    unfold verify_ed25519_ix at hr
    split_ifs at hr with hg
    · simp only [Option.some.injEq] at hr; right; exact hr.symm
    · unfold check_ed25519_data at hr
      split_ifs at hr <;> simp only [Option.some.injEq] at hr
      · right; exact hr.symm
      · right; exact hr.symm
      · left; exact hr.symm

/-- C1 witness: a concrete companion instruction on which the theorem's
hypotheses hold and the verifier accepts. -/
theorem verify_ed25519_ix_ok_iff_witness :
    verify_ed25519_ix
      (ed25519Ix (List.replicate 32 5) (List.replicate 64 7) [1, 2, 3])
      (List.replicate 32 5) [1, 2, 3] (List.replicate 64 7) = some (.ok ()) :=
  ((verify_ed25519_ix_ok_iff
      (ed25519Ix (List.replicate 32 5) (List.replicate 64 7) [1, 2, 3])
      (List.replicate 32 5) [1, 2, 3] (List.replicate 64 7)
      (by decide) (by decide)).1).mpr (by decide)

/-- C7: no two distinct expected messages can both be accepted against
the same companion instruction, public key and signature — verification
pins the instruction's trailing span to the exact message bytes. -/
theorem verify_message_unique (ix : Instruction) (pk sig m1 m2 : List Nat)
    (h1 : verify_ed25519_ix ix pk m1 sig = some (.ok ()))
    (h2 : verify_ed25519_ix ix pk m2 sig = some (.ok ())) : m1 = m2 := by
  have e1 : ix.data.drop 112 = m1 := by
    unfold verify_ed25519_ix at h1
    split_ifs at h1 with hg
    · exact absurd h1 (by simp)
    · obtain ⟨-, -, -, -, -, -, -, -, -, -, -, -, e, -⟩ :=
        (check_ed25519_data_ok_iff _ _ _ _).mp h1
      exact e
  have e2 : ix.data.drop 112 = m2 := by
    unfold verify_ed25519_ix at h2
    split_ifs at h2 with hg
    · exact absurd h2 (by simp)
    · obtain ⟨-, -, -, -, -, -, -, -, -, -, -, -, e, -⟩ :=
        (check_ed25519_data_ok_iff _ _ _ _).mp h2
      exact e
  rw [← e1, e2]

/-- C7 witness: the theorem applied at a concrete accepted instruction. -/
theorem verify_message_unique_witness : ([1, 2, 3] : List Nat) = [1, 2, 3] :=
  verify_message_unique
    (ed25519Ix (List.replicate 32 5) (List.replicate 64 7) [1, 2, 3])
    (List.replicate 32 5) (List.replicate 64 7) [1, 2, 3] [1, 2, 3]
    (by decide) (by decide)

/-- C10: under the caller's length precondition
(`data.len() = 16 + 64 + 32 + msg.len()`, established by
`verify_ed25519_ix`, together with `msg.len() ≤ 65535` so that the
`try_into::<u16>().unwrap()` succeeds) every slice access of
`check_ed25519_data` is in bounds and the function returns `Ok` or
`InvalidSigner` — it never panics (`none`); without the precondition, a
direct call on data shorter than 112 bytes is a panic. -/
theorem check_ed25519_data_safety (data pk msg sig : List Nat) :
    (data.length = 16 + 64 + 32 + msg.length → msg.length ≤ 65535 →
      check_ed25519_data data pk msg sig = some (.ok ()) ∨
      check_ed25519_data data pk msg sig =
        some (.error (.custom .InvalidSigner))) ∧
    (data.length < 112 → check_ed25519_data data pk msg sig = none) := by
  constructor
  · intro hlen hmsg
    unfold check_ed25519_data
    rw [if_neg (by omega), if_neg (by omega)]
    split_ifs <;> simp
  · intro h
    unfold check_ed25519_data
    rw [if_pos h]

/-- C10 witness: the safety theorem applied at a concrete in-spec input
and at a concrete too-short input. -/
theorem check_ed25519_data_safety_witness :
    (check_ed25519_data
        (ed25519IxData (List.replicate 32 5) (List.replicate 64 7) [1, 2, 3])
        (List.replicate 32 5) [1, 2, 3] (List.replicate 64 7) = some (.ok ()) ∨
     check_ed25519_data
        (ed25519IxData (List.replicate 32 5) (List.replicate 64 7) [1, 2, 3])
        (List.replicate 32 5) [1, 2, 3] (List.replicate 64 7) =
          some (.error (.custom .InvalidSigner))) ∧
    check_ed25519_data [0, 1, 2] (List.replicate 32 5) [1, 2, 3]
      (List.replicate 64 7) = none :=
  ⟨(check_ed25519_data_safety _ _ _ _).1 (by decide) (by decide),
   (check_ed25519_data_safety _ _ _ _).2 (by decide)⟩

/-! ### Address derivation seeds

`lib.rs` derives the asset PDA from seeds
`[&ASSET_PREFIX, key.try_to_vec()?.as_slice()]` (lines 103–106 and
155–158), while the client utility `find_asset_address`
(`utils/src/instruction.rs` 117–125) derives it from
`[&ASSET_PREFIX, keccak(key.try_to_vec()).as_ref()]`. -/

/-- `const COMMITTEE_PREFIX: [u8; 9] = *b"Committee"` (as bytes). -/
def COMMITTEE_PREFIX_BYTES : List Nat := [67, 111, 109, 109, 105, 116, 116, 101, 101]

/-- `const ASSET_PREFIX: [u8; 5] = *b"Asset"` (as bytes). -/
def ASSET_PREFIX_BYTES : List Nat := [65, 115, 115, 101, 116]

/-- Modelled from the spec: the host's length limit on each derivation
seed (`solana_program::pubkey::MAX_SEED_LEN`, not part of the snapshot);
the spec's §4.1 "host's length limits" on derivation inputs. -/
def MAX_SEED_LEN : Nat := 32

/-- The seed list the contract's `request`/`insert` feed to
`Pubkey::find_program_address` for an asset key (`lib.rs` 103–106). -/
def request_asset_seeds (k : Brc20Key) : List (List Nat) :=
  [ASSET_PREFIX_BYTES, serBrc20Key k]

/-- The seed list used by the client utility `find_asset_address`
(`utils/src/instruction.rs` 117–125), parameterised by the host's
keccak-256 (not part of the snapshot; modelled from the spec as an
arbitrary 32-byte content hash). -/
def find_asset_address_seeds (keccak : List Nat → List Nat)
    (k : Brc20Key) : List (List Nat) :=
  [ASSET_PREFIX_BYTES, keccak (serBrc20Key k)]

theorem serBrc20Key_length (k : Brc20Key) (h : k.WF) :
    (serBrc20Key k).length = 9 + (serAddressType k.address.address_type).length := by
  obtain ⟨-, htl, -, -⟩ := h
  simp only [serBrc20Key, serBtcAddress, List.length_append, List.length_cons,
    leBytes_length, htl]
  omega

theorem serAddressType_length_ge (t : AddressType) (h : t.WF) :
    33 ≤ (serAddressType t).length := by
  cases t <;>
  · obtain ⟨hl, -⟩ := h
    simp only [serAddressType, List.length_cons, hl]
    omega

/-- C2 (code bug evidence): the engine derives the asset address from the
raw serialized key, which always exceeds the host seed-length limit and
can never equal the client's content-hashed seed list (a 32-byte digest),
for any 32-byte-output hash function. -/
theorem request_seeds_not_hashed :
    (∀ k : Brc20Key, k.WF → MAX_SEED_LEN < (serBrc20Key k).length) ∧
    (∀ keccak : List Nat → List Nat, (∀ bs, (keccak bs).length = 32) →
      ∀ k : Brc20Key, k.WF →
        request_asset_seeds k ≠ find_asset_address_seeds keccak k) := by
  have hlen : ∀ k : Brc20Key, k.WF → MAX_SEED_LEN < (serBrc20Key k).length := by
    intro k hk
    have h1 := serBrc20Key_length k hk
    have h2 := serAddressType_length_ge k.address.address_type hk.2.2.2.2
    rw [h1]
    unfold MAX_SEED_LEN
    omega
  refine ⟨hlen, fun keccak hk32 k hk heq => ?_⟩
  have h1 : serBrc20Key k = keccak (serBrc20Key k) := by
    simpa [request_asset_seeds, find_asset_address_seeds] using heq
  have h2 := hk32 (serBrc20Key k)
  rw [← h1] at h2
  have h3 := hlen k hk
  unfold MAX_SEED_LEN at h3
  omega

/-- C2 witness: the theorem applied at the concrete key of the
`test_parse_asset` test, with a concrete 32-byte digest function. -/
theorem request_seeds_not_hashed_witness :
    request_asset_seeds
        ⟨1564854, [111, 114, 100, 105], ⟨1, .P2wpkh (List.replicate 33 8)⟩⟩ ≠
      find_asset_address_seeds (fun _ => List.replicate 32 0)
        ⟨1564854, [111, 114, 100, 105], ⟨1, .P2wpkh (List.replicate 33 8)⟩⟩ :=
  request_seeds_not_hashed.2 (fun _ => List.replicate 32 0) (by simp)
    ⟨1564854, [111, 114, 100, 105], ⟨1, .P2wpkh (List.replicate 33 8)⟩⟩ (by decide)

/-! ### State-transition engine (`lib.rs` entry points)

`lib.rs` constructs its asset record with exactly the fields
`prefix`, `key` and `amount` (lines 114 and 169); the snapshot's
`types.rs` declares a richer 5-field `Brc20Asset`, so the engine is
modelled against the record shape `lib.rs` actually uses, declared here
inside the `Engine` namespace. -/

namespace Engine

/-- The asset record as built by `lib.rs`:
`Brc20Asset { prefix: ASSET_PREFIX, key, amount }`. -/
structure Brc20Asset where
  prefixBytes : List Nat
  key : Brc20Key
  amount : Nat
deriving DecidableEq

def Brc20Asset.WF (a : Brc20Asset) : Prop :=
  a.prefixBytes.length = 5 ∧ IsBytes a.prefixBytes ∧ a.key.WF ∧
    a.amount < 2 ^ 128

def serBrc20Asset (a : Brc20Asset) : List Nat :=
  a.prefixBytes ++ serBrc20Key a.key ++ leBytes 16 a.amount

def Brc20Asset.try_from_slice (bs : List Nat) : Option Brc20Asset :=
  match readBytesN 5 bs with
  | some (p, r1) =>
    match readBrc20Key r1 with
    | some (k, r2) =>
      match readU 16 r2 with
      | some (am, r3) => if r3 = [] then some ⟨p, k, am⟩ else none
      | none => none
    | none => none
  | none => none

theorem assetRec_roundtrip (a : Brc20Asset) (h : a.WF) :
    Brc20Asset.try_from_slice (serBrc20Asset a) = some a := by
  obtain ⟨hp, hpb, hk, ham⟩ := h
  unfold Brc20Asset.try_from_slice
  rw [serBrc20Asset]
  simp only [List.append_assoc]
  simp only [readBytesN_ser' a.prefixBytes _ hp]
  simp only [readBrc20Key_ser a.key _ hk]
  simp only [readU_serNil 16 a.amount (by norm_num at ham ⊢; omega)]
  simp

theorem assetRec_exact {bs : List Nat} {a : Brc20Asset}
    (h : Brc20Asset.try_from_slice bs = some a) (hb : IsBytes bs) :
    bs = serBrc20Asset a ∧ a.WF := by
  unfold Brc20Asset.try_from_slice at h
  cases h1 : readBytesN 5 bs with
  | none => simp [h1] at h
  | some pr1 =>
    obtain ⟨p, r1⟩ := pr1
    simp only [h1] at h
    cases h2 : readBrc20Key r1 with
    | none => simp [h2] at h
    | some pr2 =>
      obtain ⟨k, r2⟩ := pr2
      simp only [h2] at h
      cases h3 : readU 16 r2 with
      | none => simp [h3] at h
      | some pr3 =>
        obtain ⟨am, r3⟩ := pr3
        simp only [h3] at h
        split_ifs at h with hr3
        simp only [Option.some.injEq] at h
        subst h
        subst hr3
        obtain ⟨he1, hl1⟩ := readBytesN_some h1
        have hbr1 : IsBytes r1 := by
          rw [he1] at hb; exact (isBytes_append.mp hb).2
        obtain ⟨he2, hwf2⟩ := readBrc20Key_some h2 hbr1
        have hbr2 : IsBytes r2 := by
          rw [he2] at hbr1; exact (isBytes_append.mp hbr1).2
        obtain ⟨he3, hb3⟩ := readU_some h3 hbr2
        rw [List.append_nil] at he3
        refine ⟨?_, hl1, ?_, hwf2, by norm_num at hb3 ⊢; omega⟩
        · rw [he1, he2, he3, serBrc20Asset]
          simp [List.append_assoc]
        · rw [he1] at hb; exact (isBytes_append.mp hb).1

theorem assetRec_trailing (a : Brc20Asset) (junk : List Nat) (h : a.WF)
    (hj : junk ≠ []) :
    Brc20Asset.try_from_slice (serBrc20Asset a ++ junk) = none := by
  obtain ⟨hp, hpb, hk, ham⟩ := h
  unfold Brc20Asset.try_from_slice
  rw [serBrc20Asset]
  simp only [List.append_assoc]
  simp only [readBytesN_ser' a.prefixBytes _ hp]
  simp only [readBrc20Key_ser a.key _ hk]
  simp only [readU_ser 16 a.amount _ (by norm_num at ham ⊢; omega)]
  simp [hj]

theorem serAssetRec_length (a : Brc20Asset) (h : a.prefixBytes.length = 5) :
    (serBrc20Asset a).length = 5 + (serBrc20Key a.key).length + 16 := by
  simp only [serBrc20Asset, List.length_append, leBytes_length, h]

/-! #### Accounts, addresses and chain state

`Pubkey::find_program_address` is modelled as an injective embedding of
the seed list into an address space: distinct seed lists yield distinct
addresses (the collision-freeness the design relies on), and the
committee PDA (seed `COMMITTEE_PREFIX`) never coincides with an asset
PDA (seeds `ASSET_PREFIX, serialized key`). -/

inductive Address where
  /-- the PDA derived from seed list `[COMMITTEE_PREFIX]` -/
  | committeePDA
  /-- the PDA derived from seed list `[ASSET_PREFIX, seed]` -/
  | assetPDA (seed : List Nat)
  /-- any other address -/
  | foreign (n : Nat)
deriving DecidableEq

/-- Account ownership: this program, or the system program (the owner of
accounts that were never created/assigned). -/
inductive Owner where
  | program
  | system
deriving DecidableEq

structure Account where
  owner : Owner
  data : List Nat
deriving DecidableEq

/-- A never-created account: system-owned, empty data. -/
def Account.fresh : Account := ⟨Owner.system, []⟩

/-- The persistent storage the program touches: the committee PDA
account and the asset PDA accounts, indexed by their key seed. -/
structure ChainState where
  committee : Account
  assets : List Nat → Account

/-- The empty ledger. -/
def initState : ChainState := ⟨Account.fresh, fun _ => Account.fresh⟩

/-- Borsh `serialize` into an account's existing data buffer
(`x.serialize(&mut &mut info.data.borrow_mut()[..])?`): errors when the
buffer is too small, otherwise overwrites a prefix and leaves the tail
bytes in place. -/
def writeSer (buf new : List Nat) : Except ProgramError (List Nat) :=
  if new.length ≤ buf.length then .ok (new ++ buf.drop new.length)
  else .error .serializeError

/-- `set_committee` (`lib.rs` 37–90).  Takes the caller-supplied
committee account address, the companion instruction loaded by
`load_instruction_at_checked(0, ..)` (`none` models a load failure), the
decoded `Committee` argument and the signature bytes.  Rust panics are
modelled as `none`; every other failure is `some (.error _)` and leaves
no state (the host rolls back all writes of a failed invocation).
The `committee.id != brc20_committee.id + 1` comparison on `u8` is
modelled with exact `Nat` arithmetic (checked-overflow semantics: a
rotation attempt at stored id 255 cannot succeed, because the decoded
new id is a `u8` value and `255 + 1` is not). -/
def set_committee (st : ChainState) (supplied : Address)
    (companion : Option Instruction) (committee : Committee)
    (signature : List Nat) : Option (Except ProgramError ChainState) :=
  if supplied ≠ Address.committeePDA then
    some (.error (.custom .IncorrectCommitteePDA))
  else
    match Committee.try_from_slice st.committee.data with
    | some brc20_committee =>
      if st.committee.owner ≠ Owner.program then
        some (.error (.custom .NotOwnedByBrc20Oracle))
      else if committee.id ≠ brc20_committee.id + 1 then
        some (.error (.custom .IncorrectCommitteeId))
      else
        match companion with
        | none => some (.error .sysvarError)
        | some ix =>
          match verify_ed25519_ix ix brc20_committee.address
              (serCommittee committee) signature with
          | none => none
          | some (.error e) => some (.error e)
          | some (.ok ()) =>
            match writeSer st.committee.data (serCommittee committee) with
            | .ok d =>
              some (.ok { st with committee := ⟨st.committee.owner, d⟩ })
            | .error e => some (.error e)
    | none =>
      if committee.id ≠ 0 then
        some (.error (.custom .IncorrectCommitteeId))
      else if st.committee ≠ Account.fresh then
        -- `invoke_signed(create_account ..)` fails on an in-use account
        some (.error .createAccountError)
      else
        -- account created with the exact serialized size, then written
        some (.ok { st with committee := ⟨Owner.program, serCommittee committee⟩ })

/-- `request` (`lib.rs` 92–132).  The asset PDA is derived first
(lines 103–106) from the seeds `[ASSET_PREFIX, key.try_to_vec()?]`;
`Pubkey::find_program_address` aborts (a panic: `MaxSeedLengthExceeded`
makes every bump attempt fail, and the `None` is `.expect`ed) whenever a
seed exceeds `MAX_SEED_LEN` — `ASSET_PREFIX` is 5 bytes, so the
serialized key is the seed that can trip it, and (`serBrc20Key_length`)
it always does.  Only past the derivation come the address check, the
duplicate check, and the creation of the zero-amount record
`Brc20Asset { prefix: ASSET_PREFIX, key, amount: 0 }`.
No signature or committee authorization is involved. -/
def request (st : ChainState) (supplied : Address) (key : Brc20Key) :
    Option (Except ProgramError ChainState) :=
  if MAX_SEED_LEN < (serBrc20Key key).length then none
  else if supplied ≠ Address.assetPDA (serBrc20Key key) then
    some (.error (.custom .IncorrectAssetPDA))
  else
    match Brc20Asset.try_from_slice (st.assets (serBrc20Key key)).data with
    | some _ => some (.error (.custom .DuplicateRequest))
    | none =>
      if st.assets (serBrc20Key key) ≠ Account.fresh then
        some (.error .createAccountError)
      else
        some (.ok { st with assets := (fun s =>
          if s = serBrc20Key key then
            ⟨Owner.program, serBrc20Asset ⟨ASSET_PREFIX_BYTES, key, 0⟩⟩
          else st.assets s) })

/-- `insert` (`lib.rs` 134–184), with the checks in source order:
committee ownership (147), committee PDA derivation and check (150–153;
the 9-byte `COMMITTEE_PREFIX` seed is within `MAX_SEED_LEN`), asset PDA
derivation (155–158; aborts on the over-long serialized-key seed,
modelled as `none`, exactly as in `request`), asset PDA check, asset
ownership, committee decode (`?`), companion load, §4.3 verification
against the serialized new record, then the decode-gated in-place
update.  Account contents are read at the derived addresses; in the code
the first owner check reads the caller-supplied committee account, which
is the same account once the PDA check passes — the theorems below only
concern invocations whose supplied addresses match the derived ones. -/
def insert (st : ChainState) (suppliedCommittee suppliedAsset : Address)
    (companion : Option Instruction) (key : Brc20Key) (amount : Nat)
    (signature : List Nat) : Option (Except ProgramError ChainState) :=
  if st.committee.owner ≠ Owner.program then
    some (.error (.custom .NotOwnedByBrc20Oracle))
  else if suppliedCommittee ≠ Address.committeePDA then
    some (.error (.custom .IncorrectCommitteePDA))
  else if MAX_SEED_LEN < (serBrc20Key key).length then none
  else if suppliedAsset ≠ Address.assetPDA (serBrc20Key key) then
    some (.error (.custom .IncorrectAssetPDA))
  else if (st.assets (serBrc20Key key)).owner ≠ Owner.program then
    some (.error (.custom .NotOwnedByBrc20Oracle))
  else
    match Committee.try_from_slice st.committee.data with
    | none => some (.error .borshIoError)
    | some committee =>
      match companion with
      | none => some (.error .sysvarError)
      | some ix =>
        match verify_ed25519_ix ix committee.address
            (serBrc20Asset ⟨ASSET_PREFIX_BYTES, key, amount⟩) signature with
        | none => none
        | some (.error e) => some (.error e)
        | some (.ok ()) =>
          match Brc20Asset.try_from_slice (st.assets (serBrc20Key key)).data with
          | some _ =>
            match writeSer (st.assets (serBrc20Key key)).data
                (serBrc20Asset ⟨ASSET_PREFIX_BYTES, key, amount⟩) with
            | .ok d =>
              some (.ok { st with assets := (fun s =>
                if s = serBrc20Key key then ⟨(st.assets s).owner, d⟩
                else st.assets s) })
            | .error e => some (.error e)
          | none => some (.error (.custom .RequestNotInitialized))

/-- The reachable ledger states: the empty ledger, closed under
successful invocations of the three entry points.  The well-formedness
side conditions on the decoded arguments come from
`process_instruction`'s borsh decoding of the inbound instruction. -/
inductive Reachable : ChainState → Prop where
  | init : Reachable initState
  | rotate {st st' : ChainState} (supplied : Address)
      (companion : Option Instruction) (c : Committee) (sig : List Nat) :
      Reachable st → c.WF →
      set_committee st supplied companion c sig = some (.ok st') →
      Reachable st'
  | open_asset {st st' : ChainState} (supplied : Address) (k : Brc20Key) :
      Reachable st → k.WF →
      request st supplied k = some (.ok st') →
      Reachable st'
  | update_asset {st st' : ChainState} (sc sa : Address)
      (companion : Option Instruction) (k : Brc20Key) (amount : Nat)
      (sig : List Nat) :
      Reachable st → k.WF → amount < 2 ^ 128 →
      insert st sc sa companion k amount sig = some (.ok st') →
      Reachable st'

theorem set_committee_ok_inv {st st' : ChainState} {supplied : Address}
    {companion : Option Instruction} {c : Committee} {sig : List Nat}
    (h : set_committee st supplied companion c sig = some (.ok st')) :
    supplied = Address.committeePDA ∧
    ((∃ old, Committee.try_from_slice st.committee.data = some old ∧
        st.committee.owner = Owner.program ∧ c.id = old.id + 1 ∧
        (∃ ix, companion = some ix ∧
          verify_ed25519_ix ix old.address (serCommittee c) sig =
            some (.ok ())) ∧
        ∃ d, writeSer st.committee.data (serCommittee c) = .ok d ∧
          st' = ⟨⟨st.committee.owner, d⟩, st.assets⟩) ∨
     (Committee.try_from_slice st.committee.data = none ∧ c.id = 0 ∧
        st.committee = Account.fresh ∧
        st' = ⟨⟨Owner.program, serCommittee c⟩, st.assets⟩)) := by
  unfold set_committee at h
  by_cases h1 : supplied ≠ Address.committeePDA
  · rw [if_pos h1] at h; exact absurd h (by simp)
  · rw [if_neg h1] at h
    push_neg at h1
    refine ⟨h1, ?_⟩
    cases hdec : Committee.try_from_slice st.committee.data with
    | some old =>
      simp only [hdec] at h
      by_cases howner : st.committee.owner ≠ Owner.program
      · rw [if_pos howner] at h; exact absurd h (by simp)
      · rw [if_neg howner] at h
        by_cases hid : c.id ≠ old.id + 1
        · rw [if_pos hid] at h; exact absurd h (by simp)
        · rw [if_neg hid] at h
          push_neg at howner hid
          cases hcmp : companion with
          | none => simp [hcmp] at h
          | some ix =>
            simp only [hcmp] at h
            cases hv : verify_ed25519_ix ix old.address (serCommittee c) sig with
            | none => simp [hv] at h
            | some r =>
              cases r with
              | error e => simp [hv] at h
              | ok u =>
                cases u
                simp only [hv] at h
                cases hw : writeSer st.committee.data (serCommittee c) with
                | error e => simp [hw] at h
                | ok d =>
                  simp only [hw, Option.some.injEq, Except.ok.injEq] at h
                  exact Or.inl ⟨old, rfl, howner, hid,
                    ⟨ix, rfl, hv⟩, d, rfl, h.symm⟩
    | none =>
      simp only [hdec] at h
      by_cases hid : c.id ≠ 0
      · rw [if_pos hid] at h; exact absurd h (by simp)
      · rw [if_neg hid] at h
        by_cases hfresh : st.committee ≠ Account.fresh
        · rw [if_pos hfresh] at h; exact absurd h (by simp)
        · rw [if_neg hfresh] at h
          push_neg at hid hfresh
          simp only [Option.some.injEq, Except.ok.injEq] at h
          exact Or.inr ⟨rfl, hid, hfresh, h.symm⟩

theorem request_ok_inv {st st' : ChainState} {supplied : Address}
    {key : Brc20Key}
    (h : request st supplied key = some (.ok st')) :
    supplied = Address.assetPDA (serBrc20Key key) ∧
    Brc20Asset.try_from_slice (st.assets (serBrc20Key key)).data = none ∧
    st.assets (serBrc20Key key) = Account.fresh ∧
    st' = ⟨st.committee, (fun s =>
      if s = serBrc20Key key then
        ⟨Owner.program, serBrc20Asset ⟨ASSET_PREFIX_BYTES, key, 0⟩⟩
      else st.assets s)⟩ := by
  unfold request at h
  by_cases h0 : MAX_SEED_LEN < (serBrc20Key key).length
  · rw [if_pos h0] at h; exact absurd h (by simp)
  · rw [if_neg h0] at h
    by_cases h1 : supplied ≠ Address.assetPDA (serBrc20Key key)
    · rw [if_pos h1] at h; exact absurd h (by simp)
    · rw [if_neg h1] at h
      push_neg at h1
      refine ⟨h1, ?_⟩
      cases hdec : Brc20Asset.try_from_slice (st.assets (serBrc20Key key)).data with
      | some a => simp [hdec] at h
      | none =>
        simp only [hdec] at h
        by_cases hfresh : st.assets (serBrc20Key key) ≠ Account.fresh
        · rw [if_pos hfresh] at h; exact absurd h (by simp)
        · rw [if_neg hfresh] at h
          push_neg at hfresh
          simp only [Option.some.injEq, Except.ok.injEq] at h
          exact ⟨rfl, hfresh, h.symm⟩

theorem insert_ok_inv {st st' : ChainState} {sc sa : Address}
    {companion : Option Instruction} {key : Brc20Key} {amount : Nat}
    {sig : List Nat}
    (h : insert st sc sa companion key amount sig = some (.ok st')) :
    st.committee.owner = Owner.program ∧ sc = Address.committeePDA ∧
    sa = Address.assetPDA (serBrc20Key key) ∧
    (st.assets (serBrc20Key key)).owner = Owner.program ∧
    (∃ com, Committee.try_from_slice st.committee.data = some com ∧
      ∃ ix, companion = some ix ∧
        verify_ed25519_ix ix com.address
          (serBrc20Asset ⟨ASSET_PREFIX_BYTES, key, amount⟩) sig =
            some (.ok ())) ∧
    (∃ old, Brc20Asset.try_from_slice (st.assets (serBrc20Key key)).data =
        some old) ∧
    ∃ d, writeSer (st.assets (serBrc20Key key)).data
        (serBrc20Asset ⟨ASSET_PREFIX_BYTES, key, amount⟩) = .ok d ∧
      st' = ⟨st.committee, (fun s =>
        if s = serBrc20Key key then ⟨(st.assets s).owner, d⟩
        else st.assets s)⟩ := by
  unfold insert at h
  by_cases h1 : st.committee.owner ≠ Owner.program
  · rw [if_pos h1] at h; exact absurd h (by simp)
  · rw [if_neg h1] at h
    by_cases h2 : sc ≠ Address.committeePDA
    · rw [if_pos h2] at h; exact absurd h (by simp)
    · rw [if_neg h2] at h
      by_cases h0 : MAX_SEED_LEN < (serBrc20Key key).length
      · rw [if_pos h0] at h; exact absurd h (by simp)
      · rw [if_neg h0] at h
        by_cases h3 : sa ≠ Address.assetPDA (serBrc20Key key)
        · rw [if_pos h3] at h; exact absurd h (by simp)
        · rw [if_neg h3] at h
          by_cases h4 : (st.assets (serBrc20Key key)).owner ≠ Owner.program
          · rw [if_pos h4] at h; exact absurd h (by simp)
          · rw [if_neg h4] at h
            push_neg at h1 h2 h3 h4
            cases hdec : Committee.try_from_slice st.committee.data with
            | none => simp [hdec] at h
            | some com =>
              simp only [hdec] at h
              cases hcmp : companion with
              | none => simp [hcmp] at h
              | some ix =>
                simp only [hcmp] at h
                cases hv : verify_ed25519_ix ix com.address
                    (serBrc20Asset ⟨ASSET_PREFIX_BYTES, key, amount⟩) sig with
                | none => simp [hv] at h
                | some r =>
                  cases r with
                  | error e => simp [hv] at h
                  | ok u =>
                    cases u
                    simp only [hv] at h
                    cases ha : Brc20Asset.try_from_slice
                        (st.assets (serBrc20Key key)).data with
                    | none => simp [ha] at h
                    | some old =>
                      simp only [ha] at h
                      cases hw : writeSer (st.assets (serBrc20Key key)).data
                          (serBrc20Asset ⟨ASSET_PREFIX_BYTES, key, amount⟩) with
                      | error e => simp [hw] at h
                      | ok d =>
                        simp only [hw, Option.some.injEq, Except.ok.injEq] at h
                        exact ⟨h1, h2, h3, h4, ⟨com, rfl, ix, rfl, hv⟩,
                          ⟨old, rfl⟩, d, rfl, h.symm⟩

theorem committee_tfs_nil : Committee.try_from_slice [] = none := rfl

theorem APB_length : ASSET_PREFIX_BYTES.length = 5 := rfl

theorem APB_isBytes : IsBytes ASSET_PREFIX_BYTES := by decide

theorem assetRec_tfs_nil : Brc20Asset.try_from_slice [] = none := rfl

/-- The storage invariant every reachable state satisfies: the committee
cell and every asset cell are either untouched, or program-owned exact
borsh encodings of well-formed records, with each asset record stored
under the seed of its own key. -/
def GoodState (st : ChainState) : Prop :=
  (st.committee = Account.fresh ∨
    (st.committee.owner = Owner.program ∧
      ∃ c : Committee, c.WF ∧ st.committee.data = serCommittee c)) ∧
  ∀ seed, (st.assets seed = Account.fresh ∨
    ((st.assets seed).owner = Owner.program ∧
      ∃ a : Brc20Asset, a.WF ∧ a.prefixBytes = ASSET_PREFIX_BYTES ∧
        (st.assets seed).data = serBrc20Asset a ∧
        serBrc20Key a.key = seed))

theorem reachable_good {st : ChainState} (h : Reachable st) : GoodState st := by
  induction h with
  | init =>
    exact ⟨Or.inl rfl, fun seed => Or.inl rfl⟩
  | rotate supplied companion c sig hre hwf hstep ih =>
    obtain ⟨-, hcase⟩ := set_committee_ok_inv hstep
    obtain ⟨hcom, hass⟩ := ih
    rcases hcase with ⟨old, hdec, howner, hid, -, d, hw, hst'⟩ |
        ⟨hdec, hid, hfresh, hst'⟩
    · rcases hcom with hfr | ⟨howner', cc, hwfc, hdata⟩
      · rw [hfr] at hdec
        exact absurd hdec (by simp [Account.fresh, committee_tfs_nil])
      · have hlen1 : (serCommittee c).length = 41 :=
          serCommittee_length c hwf.2.1
        have hlen2 : (serCommittee cc).length = 41 :=
          serCommittee_length cc hwfc.2.1
        unfold writeSer at hw
        rw [hdata, if_pos (by omega)] at hw
        have hd : d = serCommittee c := by
          have hdrop : (serCommittee cc).drop (serCommittee c).length = [] := by
            rw [hlen1, ← hlen2, List.drop_length]
          injection hw with hw'
          rw [← hw', hdrop, List.append_nil]
        subst hst'
        refine ⟨Or.inr ⟨howner, c, hwf, hd⟩, fun seed => hass seed⟩
    · subst hst'
      exact ⟨Or.inr ⟨rfl, c, hwf, rfl⟩, fun seed => hass seed⟩
  | open_asset supplied k hre hwf hstep ih =>
    obtain ⟨-, hdec, hfresh, hst'⟩ := request_ok_inv hstep
    obtain ⟨hcom, hass⟩ := ih
    subst hst'
    refine ⟨hcom, fun seed => ?_⟩
    by_cases hs : seed = serBrc20Key k
    · right
      refine ⟨by simp [hs], ⟨ASSET_PREFIX_BYTES, k, 0⟩, ?_, rfl,
        by simp [hs], by simp [hs]⟩
      exact ⟨APB_length, APB_isBytes, hwf, by norm_num⟩
    · simpa [hs] using hass seed
  | update_asset sc sa companion k amount sig hre hwf hamount hstep ih =>
    obtain ⟨-, -, -, howner, -, ⟨old, hdec⟩, d, hw, hst'⟩ := insert_ok_inv hstep
    obtain ⟨hcom, hass⟩ := ih
    rcases hass (serBrc20Key k) with hfr | ⟨ho, a, hwfa, hpfx, hdata, hseed⟩
    · rw [hfr] at hdec
      exact absurd hdec (by simp [Account.fresh, assetRec_tfs_nil])
    · have hlen1 : (serBrc20Asset (⟨ASSET_PREFIX_BYTES, k, amount⟩ : Brc20Asset)).length =
          5 + (serBrc20Key k).length + 16 :=
        serAssetRec_length _ APB_length
      have hlen2 : (serBrc20Asset a).length = 5 + (serBrc20Key k).length + 16 := by
        rw [serAssetRec_length a hwfa.1, hseed]
      unfold writeSer at hw
      rw [hdata, if_pos (by omega)] at hw
      have hd : d = serBrc20Asset (⟨ASSET_PREFIX_BYTES, k, amount⟩ : Brc20Asset) := by
        have hdrop : (serBrc20Asset a).drop
            (serBrc20Asset (⟨ASSET_PREFIX_BYTES, k, amount⟩ : Brc20Asset)).length = [] := by
          rw [hlen1, ← hlen2, List.drop_length]
        injection hw with hw'
        rw [← hw', hdrop, List.append_nil]
      subst hst'
      refine ⟨hcom, fun seed => ?_⟩
      by_cases hs : seed = serBrc20Key k
      · right
        refine ⟨by simp [hs, howner], ⟨ASSET_PREFIX_BYTES, k, amount⟩,
          ⟨APB_length, APB_isBytes, hwf, hamount⟩, rfl,
          by simp [hs, hd], by simp [hs]⟩
      · simpa [hs] using hass seed

theorem serBrc20Key_inj {k1 k2 : Brc20Key} (h1 : k1.WF) (h2 : k2.WF)
    (h : serBrc20Key k1 = serBrc20Key k2) : k1 = k2 := by
  have e1 := readBrc20Key_ser k1 [] h1
  have e2 := readBrc20Key_ser k2 [] h2
  rw [h] at e1
  rw [e1] at e2
  simp only [Option.some.injEq, Prod.mk.injEq] at e2
  exact e2.1

theorem committee_tfs_length {bs : List Nat} {c : Committee}
    (h : Committee.try_from_slice bs = some c) : bs.length = 41 := by
  unfold Committee.try_from_slice at h
  cases h1 : readU 1 bs with
  | none => simp [h1] at h
  | some pr1 =>
    obtain ⟨i, r1⟩ := pr1
    simp only [h1] at h
    cases h2 : readBytesN 32 r1 with
    | none => simp [h2] at h
    | some pr2 =>
      obtain ⟨addr, r2⟩ := pr2
      simp only [h2] at h
      cases h3 : readU 8 r2 with
      | none => simp [h3] at h
      | some pr3 =>
        obtain ⟨u, r3⟩ := pr3
        simp only [h3] at h
        split_ifs at h with hr3
        have l1 : 1 + r1.length = bs.length := by
          unfold readU at h1
          split at h1
          · next hle =>
            injection h1 with h1'
            cases h1'
            simp
            omega
          · exact absurd h1 (by simp)
        have l2 : 32 + r2.length = r1.length := by
          obtain ⟨he, hl⟩ := readBytesN_some h2
          rw [he]
          simp [hl]
        have l3 : 8 + r3.length = r2.length := by
          unfold readU at h3
          split at h3
          · next hle =>
            injection h3 with h3'
            cases h3'
            simp
            omega
          · exact absurd h3 (by simp)
        rw [hr3] at l3
        simp at l3
        omega

/-- C3: committee rotation sequencing.  On a reachable state, with the
caller-supplied committee address matching the derived one: if a
Committee record decodes at that address, the call fails with
`IncorrectCommitteeId` unless `new.id = current.id + 1`, and it can
succeed only when the companion attestation verifies with expected
public key the current committee's signer address and expected message
the exact serialized bytes of the new committee; if no record decodes
(bootstrap), only `id = 0` is accepted, and then the call succeeds with
no attestation checked (first writer wins). -/
theorem set_committee_contract (st : ChainState)
    (companion : Option Instruction) (newC : Committee) (sig : List Nat)
    (hre : Reachable st) :
    (∀ old, Committee.try_from_slice st.committee.data = some old →
      (newC.id ≠ old.id + 1 →
        set_committee st Address.committeePDA companion newC sig =
          some (.error (.custom .IncorrectCommitteeId))) ∧
      (∀ st', set_committee st Address.committeePDA companion newC sig =
          some (.ok st') →
        newC.id = old.id + 1 ∧
        ∃ ix, companion = some ix ∧
          verify_ed25519_ix ix old.address (serCommittee newC) sig =
            some (.ok ()))) ∧
    (Committee.try_from_slice st.committee.data = none →
      (newC.id ≠ 0 →
        set_committee st Address.committeePDA companion newC sig =
          some (.error (.custom .IncorrectCommitteeId))) ∧
      (newC.id = 0 →
        set_committee st Address.committeePDA companion newC sig =
          some (.ok ⟨⟨Owner.program, serCommittee newC⟩, st.assets⟩))) := by
  obtain ⟨hcom, -⟩ := reachable_good hre
  constructor
  · intro old hdec
    have howner : st.committee.owner = Owner.program := by
      rcases hcom with hfr | ⟨ho, -⟩
      · rw [hfr] at hdec
        exact absurd hdec (by simp [Account.fresh, committee_tfs_nil])
      · exact ho
    constructor
    · intro hne
      unfold set_committee
      rw [if_neg (by simp)]
      simp only [hdec]
      rw [if_neg (by simp [howner]), if_pos hne]
    · intro st' hok
      obtain ⟨-, hcase⟩ := set_committee_ok_inv hok
      rcases hcase with ⟨old', hdec', -, hid, hver, -⟩ | ⟨hdec', -⟩
      · rw [hdec] at hdec'
        injection hdec' with he
        subst he
        exact ⟨hid, hver⟩
      · rw [hdec] at hdec'
        exact absurd hdec' (by simp)
  · intro hdec
    have hfresh : st.committee = Account.fresh := by
      rcases hcom with hfr | ⟨-, cc, hwfc, hdata⟩
      · exact hfr
      · rw [hdata, committee_roundtrip cc hwfc] at hdec
        exact absurd hdec (by simp)
    constructor
    · intro hne
      unfold set_committee
      rw [if_neg (by simp)]
      simp only [hdec]
      rw [if_pos hne]
    · intro hid
      unfold set_committee
      rw [if_neg (by simp)]
      simp only [hdec]
      rw [if_neg (by simp [hid]), if_neg (by simp [hfresh])]

/-- One successful committee rotation, with a borsh-decoded (hence
well-formed) committee argument. -/
def RotStep (st st' : ChainState) : Prop :=
  ∃ (supplied : Address) (companion : Option Instruction) (c : Committee)
    (sig : List Nat), c.WF ∧
      set_committee st supplied companion c sig = some (.ok st')

/-- A sequence of `n` successful rotations. -/
inductive RotSeq : ChainState → ChainState → Nat → Prop where
  | refl (st : ChainState) : RotSeq st st 0
  | step {st st' st'' : ChainState} {n : Nat} :
      RotSeq st st' n → RotStep st' st'' → RotSeq st st'' (n + 1)

/-- C4: change-id monotonicity.  Each successful rotation on a state
holding a committee record moves the stored id from `old.id` to exactly
`old.id + 1` (as exact natural-number successor, so it never decreases,
repeats or wraps); over any sequence of `n` successful rotations the
stored id grows by exactly `n`, hence strictly increases along the
sequence; and on reachable states the stored id is a `u8` value
(at most 255), so a rotation at 255 can never succeed. -/
theorem change_id_monotonic :
    (∀ st st', RotStep st st' →
      ∀ old, Committee.try_from_slice st.committee.data = some old →
        ∃ newc, Committee.try_from_slice st'.committee.data = some newc ∧
          newc.id = old.id + 1) ∧
    (∀ st st' n, RotSeq st st' n →
      ∀ c0, Committee.try_from_slice st.committee.data = some c0 →
        ∃ c', Committee.try_from_slice st'.committee.data = some c' ∧
          c'.id = c0.id + n) ∧
    (∀ st, Reachable st →
      ∀ c, Committee.try_from_slice st.committee.data = some c →
        c.id ≤ 255) := by
  have hstep : ∀ st st', RotStep st st' →
      ∀ old, Committee.try_from_slice st.committee.data = some old →
        ∃ newc, Committee.try_from_slice st'.committee.data = some newc ∧
          newc.id = old.id + 1 := by
    intro st st' hrot old hdec
    obtain ⟨supplied, companion, c, sig, hwf, hok⟩ := hrot
    obtain ⟨-, hcase⟩ := set_committee_ok_inv hok
    rcases hcase with ⟨old', hdec', -, hid, -, d, hw, hst'⟩ | ⟨hdec', -⟩
    · rw [hdec] at hdec'
      injection hdec' with he
      subst he
      have hblen : st.committee.data.length = 41 := committee_tfs_length hdec
      have hclen : (serCommittee c).length = 41 := serCommittee_length c hwf.2.1
      unfold writeSer at hw
      rw [if_pos (by omega)] at hw
      injection hw with hw'
      have hd : d = serCommittee c := by
        rw [← hw', hclen, ← hblen, List.drop_length, List.append_nil]
      subst hst'
      refine ⟨c, ?_, hid⟩
      simp only [hd]
      exact committee_roundtrip c hwf
    · rw [hdec] at hdec'
      exact absurd hdec' (by simp)
  refine ⟨hstep, ?_, ?_⟩
  · intro st st' n hseq
    induction hseq with
    | refl => exact fun c0 h => ⟨c0, h, by omega⟩
    | step hseq' hrot ih =>
      intro c0 hdec
      obtain ⟨c', hdec', hid'⟩ := ih c0 hdec
      obtain ⟨newc, hdec'', hid''⟩ := hstep _ _ hrot c' hdec'
      exact ⟨newc, hdec'', by omega⟩
  · intro st hre c hdec
    obtain ⟨hcom, -⟩ := reachable_good hre
    rcases hcom with hfr | ⟨-, cc, hwfc, hdata⟩
    · rw [hfr] at hdec
      exact absurd hdec (by simp [Account.fresh, committee_tfs_nil])
    · rw [hdata, committee_roundtrip cc hwfc] at hdec
      injection hdec with he
      subst he
      have hlt := hwfc.1
      omega


/-! #### Concrete example states (for witnesses and counterexamples) -/

def exCommittee : Committee := ⟨0, List.replicate 32 9, 0⟩

def exCommittee1 : Committee := ⟨1, List.replicate 32 13, 0⟩

def exKey : Brc20Key := ⟨1, [111, 114, 100, 105], ⟨1, .P2wpkh (List.replicate 33 8)⟩⟩

def exSig : List Nat := List.replicate 64 2

/-- The state right after an (unauthenticated) bootstrap `SetCommittee`. -/
def bootState : ChainState :=
  ⟨⟨Owner.program, serCommittee exCommittee⟩, fun _ => Account.fresh⟩

theorem reachable_boot : Reachable bootState :=
  Reachable.rotate Address.committeePDA none exCommittee []
    Reachable.init (by decide) rfl

/-- A valid companion instruction attesting `⟨ASSET_PREFIX, exKey, 1000⟩`
under `exCommittee`'s key. -/
def exInsertIx : Instruction :=
  ed25519Ix exCommittee.address exSig
    (serBrc20Asset ⟨ASSET_PREFIX_BYTES, exKey, 1000⟩)

/-- C3 witness: on the bootstrapped state, a rotation with id 5 (not
0 + 1) is rejected with `IncorrectCommitteeId`. -/
theorem set_committee_contract_witness :
    set_committee bootState Address.committeePDA none
        ⟨5, List.replicate 32 13, 0⟩ [] =
      some (.error (.custom .IncorrectCommitteeId)) :=
  ((set_committee_contract bootState none ⟨5, List.replicate 32 13, 0⟩ []
      reachable_boot).1 exCommittee rfl).1 (by decide)

/-- The state after a valid rotation from `exCommittee` to
`exCommittee1`. -/
def rotState : ChainState :=
  ⟨⟨Owner.program,
    serCommittee exCommittee1 ++
      (serCommittee exCommittee).drop (serCommittee exCommittee1).length⟩,
   fun _ => Account.fresh⟩

/-- C4 witness: the per-step conjunct applied to a concrete successful
rotation, showing the stored id moves from 0 to exactly 1. -/
theorem change_id_monotonic_witness :
    ∃ c', Committee.try_from_slice rotState.committee.data = some c' ∧
      c'.id = exCommittee.id + 1 :=
  change_id_monotonic.1 bootState rotState
    ⟨Address.committeePDA,
     some (ed25519Ix exCommittee.address exSig (serCommittee exCommittee1)),
     exCommittee1, exSig, by decide, rfl⟩
    exCommittee rfl

/-- Every well-formed key's borsh serialization is 42 to 74 bytes long,
over the host's 32-byte limit on a derivation seed. -/
theorem assetSeedTooLong (k : Brc20Key) (h : k.WF) :
    MAX_SEED_LEN < (serBrc20Key k).length := by
  have h1 := serBrc20Key_length k h
  have h2 := serAddressType_length_ge k.address.address_type h.2.2.2.2
  rw [h1]
  unfold MAX_SEED_LEN
  omega

/-- C6 (code bug evidence): no `Request` invocation reaches the
`DuplicateRequest` check or persists a record — for every well-formed
key the entry point aborts inside `find_program_address`
(`lib.rs` 103–106), because the raw serialized-key seed exceeds the
host's 32-byte seed limit. -/
theorem request_always_aborts (st : ChainState) (supplied : Address)
    (key : Brc20Key) (hwf : key.WF) :
    request st supplied key = none := by
  unfold request
  rw [if_pos (assetSeedTooLong key hwf)]

/-- C6 witness: the abort at a concrete invocation (matching supplied
address, never-opened key, bootstrapped state). -/
theorem request_always_aborts_witness :
    request bootState (Address.assetPDA (serBrc20Key exKey)) exKey = none :=
  request_always_aborts bootState (Address.assetPDA (serBrc20Key exKey))
    exKey (by decide)

/-- C5 (code bug evidence): an `Insert` never returns
`RequestNotInitialized`, opened record or not: with the committee
account in order the call aborts inside `find_program_address`
(`lib.rs` 155–158) before the open/reserve check at line 180, and the
only returns before that abort are the committee owner and committee
PDA errors. -/
theorem insert_aborts_before_init_check (st : ChainState)
    (sc sa : Address) (companion : Option Instruction) (key : Brc20Key)
    (amount : Nat) (sig : List Nat) (hwf : key.WF) :
    (st.committee.owner = Owner.program → sc = Address.committeePDA →
      insert st sc sa companion key amount sig = none) ∧
    insert st sc sa companion key amount sig ≠
      some (.error (.custom .RequestNotInitialized)) := by
  unfold insert
  by_cases h1 : st.committee.owner ≠ Owner.program
  · rw [if_pos h1]
    exact ⟨fun ho _ => absurd ho h1, by simp⟩
  · rw [if_neg h1]
    by_cases h2 : sc ≠ Address.committeePDA
    · rw [if_pos h2]
      exact ⟨fun _ hsc => absurd hsc h2, by simp⟩
    · rw [if_neg h2]
      rw [if_pos (assetSeedTooLong key hwf)]
      exact ⟨fun _ _ => rfl, by simp⟩

/-- C5 witness: the concrete unopened-key invocation — correct
addresses, valid attestation, bootstrapped committee — aborts at the
derivation, and in particular does not return `RequestNotInitialized`. -/
theorem insert_aborts_before_init_check_witness :
    insert bootState Address.committeePDA
        (Address.assetPDA (serBrc20Key exKey)) (some exInsertIx)
        exKey 1000 exSig = none ∧
    insert bootState Address.committeePDA
        (Address.assetPDA (serBrc20Key exKey)) (some exInsertIx)
        exKey 1000 exSig ≠
      some (.error (.custom .RequestNotInitialized)) :=
  ⟨(insert_aborts_before_init_check bootState Address.committeePDA
      (Address.assetPDA (serBrc20Key exKey)) (some exInsertIx) exKey 1000
      exSig (by decide)).1 rfl rfl,
   (insert_aborts_before_init_check bootState Address.committeePDA
      (Address.assetPDA (serBrc20Key exKey)) (some exInsertIx) exKey 1000
      exSig (by decide)).2⟩

/-- C9 (code bug evidence): no `Insert` invocation can succeed — for
every well-formed key the call aborts inside `find_program_address`
(`lib.rs` 155–158) or fails one of the two checks before it, so the
in-place update whose frame the claim describes is unreachable. -/
theorem insert_never_succeeds (st : ChainState) (sc sa : Address)
    (companion : Option Instruction) (key : Brc20Key) (amount : Nat)
    (sig : List Nat) (st' : ChainState) (hwf : key.WF) :
    insert st sc sa companion key amount sig ≠ some (.ok st') := by
  unfold insert
  by_cases h1 : st.committee.owner ≠ Owner.program
  · rw [if_pos h1]; simp
  · rw [if_neg h1]
    by_cases h2 : sc ≠ Address.committeePDA
    · rw [if_pos h2]; simp
    · rw [if_neg h2]
      rw [if_pos (assetSeedTooLong key hwf)]
      simp

/-- C9 witness: a fully concrete insert invocation — correct addresses,
valid attestation, bootstrapped committee — cannot succeed. -/
theorem insert_never_succeeds_witness :
    insert bootState Address.committeePDA
        (Address.assetPDA (serBrc20Key exKey)) (some exInsertIx)
        exKey 1000 exSig ≠ some (.ok bootState) :=
  insert_never_succeeds bootState Address.committeePDA
    (Address.assetPDA (serBrc20Key exKey)) (some exInsertIx) exKey 1000
    exSig bootState (by decide)

end Engine

/-- C8: codec round-trip and strictness for the two persistent record
types of `types.rs`.  Well-formed values decode back from their exact
encodings; a successful decode of a byte sequence determines that the
input was exactly the encoding of the decoded value; and decoding fails
on an encoding with trailing bytes or on any strict prefix of an
encoding — decode failure is exactly how record absence is detected. -/
theorem codec_roundtrip_strict :
    (∀ c : Committee, c.WF →
      Committee.try_from_slice (serCommittee c) = some c) ∧
    (∀ a : Brc20Asset, a.WF →
      Brc20Asset.try_from_slice (serBrc20Asset a) = some a) ∧
    (∀ (bs : List Nat) (c : Committee), IsBytes bs →
      Committee.try_from_slice bs = some c → bs = serCommittee c) ∧
    (∀ (bs : List Nat) (a : Brc20Asset), IsBytes bs →
      Brc20Asset.try_from_slice bs = some a → bs = serBrc20Asset a) ∧
    (∀ (c : Committee) (junk : List Nat), c.WF → junk ≠ [] →
      Committee.try_from_slice (serCommittee c ++ junk) = none) ∧
    (∀ (a : Brc20Asset) (junk : List Nat), a.WF → junk ≠ [] →
      Brc20Asset.try_from_slice (serBrc20Asset a ++ junk) = none) ∧
    (∀ (c : Committee) (n : Nat), c.WF → n < (serCommittee c).length →
      Committee.try_from_slice ((serCommittee c).take n) = none) ∧
    (∀ (a : Brc20Asset) (n : Nat), a.WF → n < (serBrc20Asset a).length →
      Brc20Asset.try_from_slice ((serBrc20Asset a).take n) = none) :=
  ⟨committee_roundtrip, asset_roundtrip,
   fun _ _ hb h => (committee_exact h hb).1,
   fun _ _ hb h => (asset_exact h hb).1,
   committee_trailing, asset_trailing, committee_short, asset_short⟩

/-- C8 witness: the record of `types.rs`'s `test_parse_asset` test
round-trips, and a committee encoding with one trailing byte is
rejected. -/
theorem codec_roundtrip_strict_witness :
    Brc20Asset.try_from_slice (serBrc20Asset
      ⟨ASSET_PREFIX_BYTES, true, 12,
       ⟨1564854, [111, 114, 100, 105], ⟨1, .P2wpkh (List.replicate 33 8)⟩⟩,
       1000000⟩) =
      some ⟨ASSET_PREFIX_BYTES, true, 12,
        ⟨1564854, [111, 114, 100, 105], ⟨1, .P2wpkh (List.replicate 33 8)⟩⟩,
        1000000⟩ ∧
    Committee.try_from_slice
      (serCommittee ⟨0, List.replicate 32 9, 0⟩ ++ [0]) = none :=
  ⟨codec_roundtrip_strict.2.1 _ (by decide),
   codec_roundtrip_strict.2.2.2.2.1 ⟨0, List.replicate 32 9, 0⟩ [0]
     (by decide) (by decide)⟩
